import Mathlib

/-!
Verification of the ScholarWriting literature-review application.

The development shallowly embeds the two pieces of core logic of the
repository together with the service-layer post-processing they rely on:

* the structured report parser of
  src/components/LiteratureReview.tsx (parseReport / getSection);
* the six-stage workflow controller of the same component
  (handleSearch, handleDeepCapture, handleSynthesize, handleWrite,
  handleFinish and the Start New Project reset), modelled as a state
  machine whose actions carry the outcome of the awaited external call;
* the response post-processing of src/services/geminiService.ts
  (markdown stripping, grounding-chunk to paper mapping, defensive and
  non-defensive JSON parsing).

External behaviour (the generative API, the DOM, Math.random, the
platform JSON.parse builtin) is modelled by explicit parameters or by
small executable models, each flagged by a comment.  All definitions are
structurally recursive so that concrete runs reduce inside the kernel.
-/

namespace ScholarWriting

/-! ## Character and list utilities (JavaScript string primitives) -/

/-- ASCII case folding, modelling the case-insensitive regex flag and
String.prototype.toLowerCase on the ASCII inputs used by the component.
(Unicode case folding never arises for the fixed ASCII labels.) -/
def charLowerAscii (c : Char) : Char :=
  if 'A' ≤ c ∧ c ≤ 'Z' then Char.ofNat (c.toNat + 32) else c

/-- Whitespace recognised by String.prototype.trim (ASCII part plus
no-break space and BOM; the remaining Unicode space code points do not
arise in the embedded inputs). -/
def isJsSpace (c : Char) : Bool :=
  c == ' ' || c == '\t' || c == '\n' || c == '\r' || c == '\x0b' ||
  c == '\x0c' || c == '\xa0' || c == '\uFEFF'

/-- String.prototype.trim on a character list. -/
def trimJS (l : List Char) : List Char :=
  ((l.dropWhile isJsSpace).reverse.dropWhile isJsSpace).reverse

/-- Characters kept by the sanitiser s.replace(/[#*]/g, ""). -/
def keepChar (c : Char) : Bool := !(c == '#' || c == '*')

/-- The global replacement s.replace(/[#*]/g, "") of geminiService.ts. -/
def removeHashStar (s : String) : String := String.mk (s.data.filter keepChar)

/-- State machine for s.replace(/\n\x7b3,\x7d/g, "\n\n"): a maximal run of
three or more newlines keeps exactly its first two newlines, which is the
effect of globally replacing every maximal run of length at least three
by two newlines.  The counter is the number of directly preceding
newlines already emitted, saturated at two. -/
def collapseAux : Nat → List Char → List Char
  | _, [] => []
  | run, c :: cs =>
    if c = '\n' then
      if 2 ≤ run then collapseAux run cs
      else '\n' :: collapseAux (run + 1) cs
    else c :: collapseAux 0 cs

/-- The replacement .replace(/\n\x7b3,\x7d/g, "\n\n") used on search text. -/
def collapseNewlines (l : List Char) : List Char := collapseAux 0 l

/-- Case-insensitively strip the pattern from the front of the text,
returning the remainder on success. -/
def dropCI : List Char → List Char → Option (List Char)
  | [], cs => some cs
  | _ :: _, [] => none
  | p :: ps, c :: cs =>
    if charLowerAscii p = charLowerAscii c then dropCI ps cs else none

/-- Leftmost case-insensitive occurrence of the pattern: the remainder of
the text after the first position where the pattern matches, as found by
a regex scan with the i flag. -/
def findAfter (pat : List Char) : List Char → Option (List Char)
  | [] => dropCI pat []
  | c :: cs =>
    match dropCI pat (c :: cs) with
    | some rest => some rest
    | none => findAfter pat cs

/-- Case-sensitive substring test, modelling String.prototype.includes. -/
def startsWithChars : List Char → List Char → Bool
  | [], _ => true
  | _ :: _, [] => false
  | a :: as, b :: bs => a == b && startsWithChars as bs

/-- Substring occurrence test (String.prototype.includes). -/
def containsChars (needle : List Char) : List Char → Bool
  | [] => startsWithChars needle []
  | c :: cs => startsWithChars needle (c :: cs) || containsChars needle cs

/-- The .map((x, index) => f index x) combinator of JavaScript arrays,
carrying the running index. -/
def mapWithIndex {α β : Type} (f : Nat → α → β) : Nat → List α → List β
  | _, [] => []
  | k, a :: as => f k a :: mapWithIndex f (k + 1) as

/-! ## Structured report parser (LiteratureReview.tsx, parseReport) -/

/-- The eight-field report record of LiteratureReview.tsx. -/
structure StructuredReport where
  tajuk : String
  abstrak : String
  pengenalan : String
  metodologi : String
  hasilKajian : String
  perbincangan : String
  rumusan : String
  rujukan : String
deriving DecidableEq, Repr

/-- Sentinel produced when a label is missing. -/
def contentNotGenerated : String := "Content not generated."

/-- The helper getSection of parseReport: the regex
new RegExp("\\[" + label + "\\]([\\s\\S]*?)(?=\\[|$)", "i") finds the
first case-insensitive occurrence of the bracketed label; the lazy group
with the lookahead captures the text up to the next opening bracket or
the end of the string; the capture is trimmed, and a failed match yields
the sentinel. -/
def getSection (text : String) (label : String) : String :=
  match findAfter ('[' :: (label.data ++ [']'])) text.data with
  | none => contentNotGenerated
  | some rest => String.mk (trimJS (rest.takeWhile (fun c => !(c == '['))))

/-- The parseReport function of LiteratureReview.tsx. -/
def parseReport (text : String) : StructuredReport :=
  { tajuk := getSection text ("TAJUK")
    abstrak := getSection text ("ABSTRAK")
    pengenalan := getSection text ("PENGENALAN")
    metodologi := getSection text ("METODOLOGI")
    hasilKajian := getSection text ("HASIL KAJIAN")
    perbincangan := getSection text ("PERBINCANGAN")
    rumusan := getSection text ("RUMUSAN")
    rujukan := getSection text ("RUJUKAN") }

/-- The eight section labels, in source order. -/
def reportLabels : List String :=
  ["TAJUK", "ABSTRAK", "PENGENALAN", "METODOLOGI", "HASIL KAJIAN",
   "PERBINCANGAN", "RUMUSAN", "RUJUKAN"]

/-- Modelled from the claim wording (for comparison with getSection, not
from the source): does the text start with one of the eight bracketed
label delimiters, case-insensitively? -/
def startsWithAnyLabel (cs : List Char) : Bool :=
  reportLabels.any (fun L => (dropCI ('[' :: (L.data ++ [']'])) cs).isSome)

/-- Modelled from the claim wording: content up to the next occurrence of
one of the eight bracketed labels, rather than up to the next bracket. -/
def takeUntilLabel : List Char → List Char
  | [] => []
  | c :: cs =>
    if startsWithAnyLabel (c :: cs) then [] else c :: takeUntilLabel cs

/-- Modelled from the claim wording of C4: section extraction that stops
only at one of the eight label delimiters or the end of the string. -/
def getSectionClaimed (text : String) (label : String) : String :=
  match findAfter ('[' :: (label.data ++ [']'])) text.data with
  | none => contentNotGenerated
  | some rest => String.mk (trimJS (takeUntilLabel rest))

/-- Case-insensitive equality of character lists. -/
def ciEq (a b : List Char) : Prop :=
  a.map charLowerAscii = b.map charLowerAscii

/-- A case-insensitive occurrence of the pattern at position i of l. -/
def OccursCIAt (pat l : List Char) (i : Nat) : Prop :=
  ∃ m rest, l.drop i = m ++ rest ∧ ciEq pat m

/-! ## JSON value model

The service parses collaborator responses with the platform JSON.parse
builtin.  The builtin is not repository code; it is modelled here by an
executable recursive-descent parser over the JSON fragment the service
exercises: objects, arrays, strings without \u escapes, integer
numerals, booleans and null.  (Fraction and exponent numerals and \u
escapes are outside the modelled fragment; none of the claims exercises
them.) -/

inductive Json where
  | null : Json
  | bool (b : Bool) : Json
  | num (n : Int) : Json
  | str (s : String) : Json
  | arr (elems : List Json) : Json
  | obj (members : List (String × Json)) : Json

/-- Whitespace accepted between JSON tokens. -/
def isJsonWs (c : Char) : Bool := c == ' ' || c == '\t' || c == '\n' || c == '\r'

/-- Single-character JSON string escapes. -/
def escChar : Char → Option Char
  | '"' => some '"'
  | '\\' => some '\\'
  | '/' => some '/'
  | 'b' => some '\x08'
  | 'f' => some '\x0c'
  | 'n' => some '\n'
  | 'r' => some '\r'
  | 't' => some '\t'
  | _ => none

/-- Body of a JSON string literal after the opening quote; returns the
decoded characters and the remainder after the closing quote. -/
def parseStringAux : List Char → Option (List Char × List Char)
  | [] => none
  | '"' :: rest => some ([], rest)
  | '\\' :: e :: rest =>
    match escChar e, parseStringAux rest with
    | some c, some (s, r) => some (c :: s, r)
    | _, _ => none
  | c :: rest =>
    if c.toNat < 32 then none
    else
      match parseStringAux rest with
      | some (s, r) => some (c :: s, r)
      | none => none

/-- Strip an exact literal from the front of the input. -/
def dropLit : List Char → List Char → Option (List Char)
  | [], cs => some cs
  | _ :: _, [] => none
  | l :: ls, c :: cs => if l = c then dropLit ls cs else none

/-- Integer JSON numerals (optional minus, no redundant leading zero). -/
def parseNumberTok (cs : List Char) : Option (Json × List Char) :=
  let sign : Bool × List Char :=
    match cs with
    | '-' :: r => (true, r)
    | _ => (false, cs)
  let ds := sign.2.takeWhile Char.isDigit
  let rest := sign.2.dropWhile Char.isDigit
  if ds = [] then none
  else if ds.length > 1 && ds.head? = some '0' then none
  else
    let n : Nat := ds.foldl (fun a c => a * 10 + (c.toNat - 48)) 0
    some (Json.num (if sign.1 then -(n : Int) else (n : Int)), rest)

mutual
/-- Recursive-descent JSON value parser (fuelled; the fuel given by
jsonParseModel always suffices because every recursive call follows the
consumption of at least one input character). -/
def parseJsonValue : Nat → List Char → Option (Json × List Char)
  | 0, _ => none
  | fuel + 1, cs0 =>
    let cs := cs0.dropWhile isJsonWs
    match cs with
    | [] => none
    | 'n' :: rest => (dropLit ['u', 'l', 'l'] rest).map (fun r => (Json.null, r))
    | 't' :: rest => (dropLit ['r', 'u', 'e'] rest).map (fun r => (Json.bool true, r))
    | 'f' :: rest => (dropLit ['a', 'l', 's', 'e'] rest).map (fun r => (Json.bool false, r))
    | '"' :: rest => (parseStringAux rest).map (fun p => (Json.str (String.mk p.1), p.2))
    | '{' :: rest => (parseJsonMembers fuel true rest).map (fun p => (Json.obj p.1, p.2))
    | '[' :: rest => (parseJsonElems fuel true rest).map (fun p => (Json.arr p.1, p.2))
    | c :: _ => if c = '-' || c.isDigit then parseNumberTok cs else none

/-- Object members after the opening brace; the flag records whether a
closing brace may come next (no trailing commas, as in JSON.parse).
Duplicate keys are kept in order; member access resolves to the last
occurrence, as in a JavaScript object literal. -/
def parseJsonMembers : Nat → Bool → List Char → Option (List (String × Json) × List Char)
  | 0, _, _ => none
  | fuel + 1, first, cs0 =>
    let cs := cs0.dropWhile isJsonWs
    match cs with
    | '}' :: rest => if first then some ([], rest) else none
    | '"' :: rest =>
      match parseStringAux rest with
      | none => none
      | some (key, r1) =>
        match r1.dropWhile isJsonWs with
        | ':' :: r2 =>
          match parseJsonValue fuel r2 with
          | none => none
          | some (v, r3) =>
            match r3.dropWhile isJsonWs with
            | ',' :: r4 =>
              (parseJsonMembers fuel false r4).map (fun p => ((String.mk key, v) :: p.1, p.2))
            | '}' :: r4 => some ([(String.mk key, v)], r4)
            | _ => none
        | _ => none
    | _ => none

/-- Array elements after the opening bracket. -/
def parseJsonElems : Nat → Bool → List Char → Option (List Json × List Char)
  | 0, _, _ => none
  | fuel + 1, first, cs0 =>
    let cs := cs0.dropWhile isJsonWs
    match cs with
    | ']' :: rest => if first then some ([], rest) else none
    | _ =>
      match parseJsonValue fuel cs with
      | none => none
      | some (v, r1) =>
        match r1.dropWhile isJsonWs with
        | ',' :: r2 => (parseJsonElems fuel false r2).map (fun p => (v :: p.1, p.2))
        | ']' :: r2 => some ([v], r2)
        | _ => none
end

/-- Models the platform JSON.parse builtin on the fragment described for
Json: some value on success, none when the builtin would throw a
SyntaxError.  Trailing garbage after the value is rejected, as by the
builtin. -/
def jsonParseModel (s : String) : Option Json :=
  match parseJsonValue (2 * s.length + 4) s.data with
  | none => none
  | some (j, rest) => if rest.dropWhile isJsonWs = [] then some j else none

/-- Member access on a parsed object, resolving duplicate keys to the
last occurrence as a JavaScript object literal does. -/
def lookupMember : List (String × Json) → String → Option Json
  | [], _ => none
  | (k, v) :: ms, key =>
    match lookupMember ms key with
    | some w => some w
    | none => if k = key then some v else none

mutual
/-- The round trip JSON.parse(JSON.stringify(result).replace(/[#*]/g, ""))
of analyzeData: hash and asterisk characters can occur only inside the
string literals of the serialised form, so the round trip removes them
from every string value and key and changes nothing else.  (Keys that
collide after stripping would be collapsed by the re-parse; no embedded
accessor observes member multiplicity, so members are stripped
pointwise.) -/
def stripJson : Json → Json
  | .null => .null
  | .bool b => .bool b
  | .num n => .num n
  | .str s => .str (removeHashStar s)
  | .arr xs => .arr (stripJsonList xs)
  | .obj ms => .obj (stripJsonMembers ms)

def stripJsonList : List Json → List Json
  | [] => []
  | j :: js => stripJson j :: stripJsonList js

def stripJsonMembers : List (String × Json) → List (String × Json)
  | [] => []
  | (k, v) :: ms => (removeHashStar k, stripJson v) :: stripJsonMembers ms
end

/-! ## Data model (types.ts) -/

/-- The captured article details of types.ts. relevanceScore is a JSON
number; the embedded payloads use integers only. -/
structure CapturedDetails where
  methodology : String
  findings : List String
  limitations : String
  citation : String
  relevanceScore : Int
deriving DecidableEq, Repr

/-- The paper record of types.ts (scopusLevel kept as its string value). -/
structure Paper where
  id : String
  title : String
  authors : String
  year : String
  journal : String
  scopusLevel : String
  url : String
  capturedData : Option CapturedDetails := none
deriving DecidableEq, Repr

/-- The review types of types.ts. -/
inductive ReviewType where
  | SLR : ReviewType
  | SCOPING : ReviewType
  | NARRATIVE : ReviewType
deriving DecidableEq, Repr

/-- The pair returned by searchLiterature and stored by the component as
results (papers plus summary text). -/
structure SearchResults where
  papers : List Paper
  summary : String
deriving DecidableEq, Repr

/-- The PRISMA-style counters of the component. -/
structure Metrics where
  identified : Nat
  screened : Nat
  excluded : Nat
  included : Nat
deriving DecidableEq, Repr

/-! ## geminiService.ts -/

/-- A grounding chunk of the search response: the optional web part with
its optional uri and title. -/
structure WebInfo where
  uri : Option String := none
  title : Option String := none
deriving DecidableEq, Repr

/-- A grounding chunk as read from response.candidates. -/
structure GroundingChunk where
  web : Option WebInfo := none
deriving DecidableEq, Repr

/-- The uri of a chunk, when the web part is present. -/
def chunkUri (c : GroundingChunk) : Option String :=
  match c.web with
  | some w => w.uri
  | none => none

/-- The filter chunk.web?.uri of searchLiterature: JavaScript truthiness,
so a missing or empty uri is rejected. -/
def hasUri (c : GroundingChunk) : Bool :=
  match chunkUri c with
  | some u => !(u == "")
  | none => false

/-- The title default chunk.web?.title || "Untitled Source" (an absent or
empty title is falsy). -/
def chunkTitle (c : GroundingChunk) : String :=
  match c.web with
  | some w =>
    match w.title with
    | some t => if t = "" then "Untitled Source" else t
    | none => "Untitled Source"
  | none => "Untitled Source"

/-- The paper built from a uri-bearing chunk by searchLiterature.  The
index is the position the .map callback receives, i.e. the position in
the filtered chunk array.  The coin oracle stands for the
Math.random() > 0.6 draw of the callback (demo ranking logic); true
selects Q2. -/
def mkPaper (coin : Nat → Bool) (index : Nat) (c : GroundingChunk) : Paper :=
  let title := removeHashStar (chunkTitle c)
  let lowered := title.data.map charLowerAscii
  let isHighImpact :=
    containsChars ("nature".data) lowered || containsChars ("ieee".data) lowered ||
    containsChars ("science".data) lowered || containsChars ("lancet".data) lowered
  { id := "paper-" ++ toString index
    title := title
    authors := "Various Authors"
    year := "2020-2024"
    journal := "Academic Journal"
    scopusLevel := if isHighImpact then "Q1" else if coin index then "Q2" else "Q3"
    url :=
      match chunkUri c with
      | some u => if u = "" then "#" else u
      | none => "#" }

/-- The paper list of searchLiterature:
groundingChunks.filter(chunk => chunk.web?.uri).map(...).slice(0, 50). -/
def searchPapers (chunks : List GroundingChunk) (coin : Nat → Bool) : List Paper :=
  (mapWithIndex (mkPaper coin) 0 (chunks.filter hasUri)).take 50

/-- The summary text of searchLiterature:
(response.text || "").replace(/[#*]/g, "").replace(/\n\x7b3,\x7d/g, "\n\n").trim(). -/
def searchText (raw : String) : String :=
  String.mk (trimJS (collapseNewlines (raw.data.filter keepChar)))

/-- The value returned by searchLiterature, as a function of the raw
response text, the grounding chunks and the random draws. -/
def searchLiterature (raw : String) (chunks : List GroundingChunk)
    (coin : Nat → Bool) : SearchResults :=
  { papers := searchPapers chunks coin, summary := searchText raw }

/-- The response post-processing of composeAcademicText (and of
humanizeText and paraphraseText): (response.text || "").replace(/[#*]/g, ""). -/
def composeAcademicText (raw : String) : String := removeHashStar raw

/-- The text from the last closing brace backwards, used by the greedy
regex match below. -/
def takeThroughLastClose (cs : List Char) : List Char :=
  (cs.reverse.dropWhile (fun c => !(c == '}'))).reverse

/-- The match text.match(/\x7b[\s\S]*\x7d/) of captureArticleDetails:
the leftmost opening brace followed by a later closing brace starts the
match, and the greedy body extends it to the last closing brace of the
string. -/
def extractJsonBlock : List Char → Option (List Char)
  | [] => none
  | c :: cs =>
    if c = '{' && cs.contains '}' then some ('{' :: takeThroughLastClose cs)
    else extractJsonBlock cs

/-- The string handed to JSON.parse by captureArticleDetails:
jsonMatch ? jsonMatch[0] : "\x7b\x7d". -/
def jsonStrOf (text : String) : String :=
  match extractJsonBlock text.data with
  | some l => String.mk l
  | none => String.mk ['{', '}']

/-- The record returned by the catch branch of captureArticleDetails. -/
def fallbackDetails (title : String) : CapturedDetails :=
  { methodology := "Error parsing details"
    findings := ["Check article link manually"]
    limitations := "N/A"
    citation := title
    relevanceScore := 0 }

/-- A string-typed field access (data.key || dflt).replace(/[#*]/g, "")
before the replace: some gives the string the JavaScript expression
produces, none means the .replace call would throw a TypeError (caught
by the surrounding try).  Falsy values (absent, null, false, 0, empty
string) select the default. -/
def stringFieldJS (ms : List (String × Json)) (key dflt : String) : Option String :=
  match lookupMember ms key with
  | none => some dflt
  | some Json.null => some dflt
  | some (Json.bool false) => some dflt
  | some (Json.bool true) => none
  | some (Json.num n) => if n = 0 then some dflt else none
  | some (Json.str s) => some (if s = "" then dflt else s)
  | some (Json.arr _) => none
  | some (Json.obj _) => none

/-- Every element of the array must be a string for the .map callback
f => f.replace(...) not to throw. -/
def strListOf : List Json → Option (List String)
  | [] => some []
  | Json.str s :: xs =>
    match strListOf xs with
    | some l => some (s :: l)
    | none => none
  | _ :: _ => none

/-- The findings access (data.findings || []).map(f => f.replace(...)):
falsy values give the empty list, an array of strings maps, anything
else throws (none). -/
def findingsFieldJS (ms : List (String × Json)) : Option (List String) :=
  match lookupMember ms "findings" with
  | none => some []
  | some Json.null => some []
  | some (Json.bool false) => some []
  | some (Json.bool true) => none
  | some (Json.num n) => if n = 0 then some [] else none
  | some (Json.str s) => if s = "" then some [] else none
  | some (Json.arr xs) => strListOf xs
  | some (Json.obj _) => none

/-- The access data.relevanceScore || 0: the numeric value, or 0 for a
falsy one.  (A truthy non-numeric payload value would be stored untyped
by the JavaScript; no claim exercises that corner and it is mapped to
its numeric default here.) -/
def relevanceFieldJS (ms : List (String × Json)) : Int :=
  match lookupMember ms "relevanceScore" with
  | some (Json.num n) => n
  | _ => 0

/-- The successful-parse branch of captureArticleDetails over the parsed
members; any field access that would throw falls back to the catch
record. -/
def captureFromMembers (title : String) (ms : List (String × Json)) : CapturedDetails :=
  match stringFieldJS ms ("methodology") ("N/A"), findingsFieldJS ms,
        stringFieldJS ms ("limitations") ("N/A"), stringFieldJS ms ("citation") ("N/A") with
  | some m, some fs, some lim, some cit =>
    { methodology := removeHashStar m
      findings := fs.map removeHashStar
      limitations := removeHashStar lim
      citation := removeHashStar cit
      relevanceScore := relevanceFieldJS ms }
  | _, _, _, _ => fallbackDetails title

/-- captureArticleDetails as a function of the raw response text and the
requested title: extract the brace-delimited block (or "\x7b\x7d"),
parse it, and read the fields; every failure inside the try block lands
in the catch and produces the fallback record.  A parsed non-object is
impossible for a brace-delimited input, but is embedded by its
JavaScript meaning: member access on null throws, member access on any
other primitive yields undefined. -/
def captureArticleDetails (responseText : String) (title : String) : CapturedDetails :=
  match jsonParseModel (jsonStrOf responseText) with
  | none => fallbackDetails title
  | some (Json.obj ms) => captureFromMembers title ms
  | some Json.null => fallbackDetails title
  | some _ => captureFromMembers title []

/-- The SyntaxError thrown by JSON.parse, as propagated by analyzeData. -/
def jsonParseError : String := "SyntaxError: JSON.parse"

/-- analyzeData as a function of the raw response text: JSON.parse of the
trimmed text is NOT wrapped in try/catch, so a parse failure is
propagated to the caller (error); on success the result is the
stringify-strip-reparse round trip stripJson. -/
def analyzeData (responseText : String) : Except String Json :=
  match jsonParseModel (String.mk (trimJS responseText.data)) with
  | none => Except.error jsonParseError
  | some j => Except.ok (stripJson j)

/-! ## Stage workflow controller (LiteratureReview.tsx)

The component state is the tuple of useState hooks.  Each asynchronous
handler is embedded end-to-end as a state transformer taking the outcome
of its awaited external call; the Bool of the result records whether the
external call was issued at all.  The prompt and context strings sent to
the collaborator do not influence the component state and are not
modelled. -/

/-- Outcome of an awaited external call: a resolved value or a rejection
(caught by the catch branch of the handler). -/
inductive CallOutcome (α : Type) where
  | ok (v : α) : CallOutcome α
  | err : CallOutcome α
deriving DecidableEq, Repr

/-- The text/table toggle of the draft view. -/
inductive ViewMode where
  | text : ViewMode
  | table : ViewMode
deriving DecidableEq, Repr

/-- The useState hooks of LiteratureReview. -/
structure LRState where
  query : String
  userReferences : String
  reviewType : ReviewType
  loading : Bool
  capturing : Option String
  results : Option SearchResults
  selectedCapture : Option (Paper × CapturedDetails)
  finalSynthesis : String
  reportDraft : String
  viewMode : ViewMode
  stage : Nat
  metrics : Metrics
deriving DecidableEq, Repr

/-- The initial component state. -/
def initState : LRState :=
  { query := ""
    userReferences := ""
    reviewType := ReviewType.SLR
    loading := false
    capturing := none
    results := none
    selectedCapture := none
    finalSynthesis := ""
    reportDraft := ""
    viewMode := ViewMode.text
    stage := 1
    metrics := { identified := 0, screened := 0, excluded := 0, included := 0 } }

/-- handleSearch: an empty query returns before any state change or call;
otherwise loading and stage 2 are set, the call is awaited, success
stores the results and metrics and advances to stage 3, failure only
logs, and the finally branch clears loading.  Math.floor(n * 0.2) and
Math.floor(n * 0.8) are embedded as n * 2 / 10 and n * 8 / 10 (equal on
every list length the slice bound admits). -/
def handleSearch (s : LRState) (outcome : CallOutcome SearchResults) : LRState × Bool :=
  if s.query = "" then (s, false)
  else
    match outcome with
    | .ok data =>
      ({ s with
          loading := false
          results := some data
          metrics :=
            { identified := data.papers.length
              screened := data.papers.length
              excluded := data.papers.length * 2 / 10
              included := data.papers.length * 8 / 10 }
          stage := 3 }, true)
    | .err => ({ s with stage := 2, loading := false }, true)

/-- handleDeepCapture: success attaches the details to the matching paper
and opens the capture modal; failure only logs; the finally branch
clears the capturing marker. -/
def handleDeepCapture (s : LRState) (paper : Paper)
    (outcome : CallOutcome CapturedDetails) : LRState :=
  match outcome with
  | .ok details =>
    let updatedResults :=
      match s.results with
      | some r =>
        some { r with
                papers := r.papers.map (fun p =>
                  if p.id = paper.id then { p with capturedData := some details } else p) }
      | none => none
    { s with
        results := updatedResults
        selectedCapture := some (paper, details)
        capturing := none }
  | .err => { s with capturing := none }

/-- handleSynthesize: a missing results value returns before any state
change or call; otherwise success stores the synthesis and advances to
stage 4, failure only logs, and the finally branch clears loading. -/
def handleSynthesize (s : LRState) (outcome : CallOutcome String) : LRState × Bool :=
  match s.results with
  | none => (s, false)
  | some _ =>
    match outcome with
    | .ok synthesis =>
      ({ s with finalSynthesis := synthesis, stage := 4, loading := false }, true)
    | .err => ({ s with loading := false }, true)

/-- handleWrite: success stores the draft and advances to stage 5,
failure only logs, and the finally branch clears loading. -/
def handleWrite (s : LRState) (outcome : CallOutcome String) : LRState × Bool :=
  match outcome with
  | .ok draft => ({ s with reportDraft := draft, stage := 5, loading := false }, true)
  | .err => ({ s with loading := false }, true)

/-- handleFinish: () => setStage(6). -/
def handleFinish (s : LRState) : LRState := { s with stage := 6 }

/-- The Start New Project onClick of the FINISH panel:
setStage(1); setResults(null); setFinalSynthesis(""); setReportDraft(""). -/
def startNewProject (s : LRState) : LRState :=
  { s with stage := 1, results := none, finalSynthesis := "", reportDraft := "" }

/-- The user-triggerable controller actions, carrying the outcome of the
external call they await (where they await one). -/
inductive Action where
  | search (outcome : CallOutcome SearchResults) : Action
  | deepCapture (paper : Paper) (outcome : CallOutcome CapturedDetails) : Action
  | synthesize (outcome : CallOutcome String) : Action
  | write (outcome : CallOutcome String) : Action
  | finishAction : Action
  | resetAction : Action
  | setQuery (q : String) : Action
  | setUserReferences (r : String) : Action
  | setReviewType (t : ReviewType) : Action
  | setViewMode (m : ViewMode) : Action
  | closeCapture : Action

/-- Whether an action can be triggered in a state, per the render
conditions and disabled attributes of the component: the search form
exists only at stage 1 with its button enabled while not loading; the
extract buttons exist at stage 3 for listed papers and are disabled
while a capture is in flight; Synthesize, Write and Finalize appear in
the action bar at stages 3, 4 and 5 respectively (the bar needs results
present, and the first two are disabled while loading); Start New
Project appears only in the stage-6 panel, itself inside the results
block; the plan-stage inputs exist at stage 1; the view toggle exists at
stages 4 and 5; the capture modal close button needs an open modal. -/
def enabled (s : LRState) : Action → Bool
  | .search _ => s.stage == 1 && !s.loading
  | .deepCapture p _ =>
    s.stage == 3 && !s.capturing.isSome &&
      (match s.results with
       | some r => r.papers.contains p
       | none => false)
  | .synthesize _ => s.stage == 3 && s.results.isSome && !s.loading
  | .write _ => s.stage == 4 && s.results.isSome && !s.loading
  | .finishAction => s.stage == 5 && s.results.isSome
  | .resetAction => s.stage == 6 && s.results.isSome
  | .setQuery _ => s.stage == 1
  | .setUserReferences _ => s.stage == 1
  | .setReviewType _ => s.stage == 1
  | .setViewMode _ => (s.stage == 4 || s.stage == 5) && s.results.isSome
  | .closeCapture => s.selectedCapture.isSome

/-- The state after an action completes. -/
def step (s : LRState) : Action → LRState
  | .search o => (handleSearch s o).1
  | .deepCapture p o => handleDeepCapture s p o
  | .synthesize o => (handleSynthesize s o).1
  | .write o => (handleWrite s o).1
  | .finishAction => handleFinish s
  | .resetAction => startNewProject s
  | .setQuery q => { s with query := q }
  | .setUserReferences r => { s with userReferences := r }
  | .setReviewType t => { s with reviewType := t }
  | .setViewMode m => { s with viewMode := m }
  | .closeCapture => { s with selectedCapture := none }

/-- Marks the explicit reset action. -/
def isReset : Action → Bool
  | .resetAction => true
  | _ => false

/-- States reachable from the initial state by enabled actions. -/
inductive ReachableState : LRState → Prop where
  | init : ReachableState initState
  | next (s : LRState) (a : Action) :
      ReachableState s → enabled s a = true → ReachableState (step s a)

/-! ## Concrete instances used by witnesses and counterexamples -/

/-- A plan-stage state with a non-empty research question. -/
def sSearchFail : LRState := { initState with query := "blockchain privacy" }

/-- A result value as stored after a successful search. -/
def exampleResults : SearchResults := { papers := [], summary := "summary" }

/-- An extract-stage state with results present. -/
def sMid : LRState :=
  { initState with query := "q", results := some exampleResults, stage := 3 }

/-- A finish-stage state with results, synthesis and draft present. -/
def sFinish : LRState :=
  { initState with
      stage := 6
      results := some exampleResults
      finalSynthesis := "syn"
      reportDraft := "draft" }

/-- A grounding chunk whose web part has no uri. -/
def chunkNoUri : GroundingChunk :=
  { web := some { uri := none, title := some ("First") } }

/-- A grounding chunk with a uri, appearing after the uri-less one. -/
def chunkWithUri : GroundingChunk :=
  { web := some { uri := some ("http://u1"), title := some ("Second") } }

/-- A chunk list whose only uri-bearing chunk sits at index 1. -/
def chunksEx : List GroundingChunk := [chunkNoUri, chunkWithUri]

/-- A fixed random oracle. -/
def coinTrue : Nat → Bool := fun _ => true

/-- The paper produced from the uri-bearing chunk at filtered position 0. -/
def paperEx : Paper := mkPaper coinTrue 0 chunkWithUri

end ScholarWriting

namespace ScholarWriting

/-! ## Helper lemmas -/

/-- Soundness of dropCI: a successful strip decomposes the input into a
case-insensitive copy of the pattern followed by the remainder. -/
theorem dropCI_sound :
    ∀ (pat cs rest : List Char), dropCI pat cs = some rest →
      ∃ m, cs = m ++ rest ∧ ciEq pat m := by
  intro pat
  induction pat with
  | nil =>
    intro cs rest h
    refine ⟨[], ?_, rfl⟩
    simpa [dropCI] using h
  | cons p ps ih =>
    intro cs rest h
    cases cs with
    | nil => simp [dropCI] at h
    | cons c cs2 =>
      by_cases hc : charLowerAscii p = charLowerAscii c
      · rw [dropCI, if_pos hc] at h
        obtain ⟨m, hm, hci⟩ := ih cs2 rest h
        refine ⟨c :: m, by rw [hm]; rfl, ?_⟩
        simpa [ciEq, List.map_cons] using And.intro hc hci
      · rw [dropCI, if_neg hc] at h
        cases h

/-- Completeness of dropCI: it strips any case-insensitive copy of the
pattern. -/
theorem dropCI_complete :
    ∀ (pat m rest : List Char), ciEq pat m → dropCI pat (m ++ rest) = some rest := by
  intro pat
  induction pat with
  | nil =>
    intro m rest hci
    have hm : m = [] := by simpa [ciEq] using hci
    subst hm
    simp [dropCI]
  | cons p ps ih =>
    intro m rest hci
    cases m with
    | nil => simp [ciEq] at hci
    | cons c m2 =>
      have hci2 : charLowerAscii p = charLowerAscii c ∧ ciEq ps m2 := by
        simpa [ciEq, List.map_cons] using hci
      simp only [List.cons_append, dropCI, if_pos hci2.1]
      exact ih m2 rest hci2.2

/-- Soundness of findAfter: a hit is at some position, and no earlier
position matches. -/
theorem findAfter_sound :
    ∀ (pat l rest : List Char), findAfter pat l = some rest →
      ∃ i, dropCI pat (l.drop i) = some rest ∧
        ∀ j, j < i → dropCI pat (l.drop j) = none := by
  intro pat l
  induction l with
  | nil =>
    intro rest h
    refine ⟨0, ?_, ?_⟩
    · simpa [findAfter] using h
    · intro j hj
      exact absurd hj (Nat.not_lt_zero j)
  | cons c cs ih =>
    intro rest h
    cases hd : dropCI pat (c :: cs) with
    | some r =>
      rw [findAfter, hd] at h
      refine ⟨0, ?_, ?_⟩
      · simpa using hd.trans h
      · intro j hj
        exact absurd hj (Nat.not_lt_zero j)
    | none =>
      rw [findAfter, hd] at h
      obtain ⟨i, hi, hmin⟩ := ih rest h
      refine ⟨i + 1, hi, ?_⟩
      intro j hj
      cases j with
      | zero => exact hd
      | succ j2 => exact hmin j2 (by omega)

/-- A miss of findAfter means no position matches. -/
theorem findAfter_nowhere :
    ∀ (pat l : List Char), findAfter pat l = none →
      ∀ i, dropCI pat (l.drop i) = none := by
  intro pat l
  induction l with
  | nil =>
    intro h i
    simpa [findAfter] using h
  | cons c cs ih =>
    intro h i
    cases hd : dropCI pat (c :: cs) with
    | some r => rw [findAfter, hd] at h; cases h
    | none =>
      rw [findAfter, hd] at h
      cases i with
      | zero => exact hd
      | succ j => exact ih h j

/-- Every member of a takeWhile satisfies the predicate. -/
theorem takeWhile_true_of_mem (p : Char → Bool) :
    ∀ (l : List Char) (c : Char), c ∈ l.takeWhile p → p c = true := by
  intro l
  induction l with
  | nil => intro c hc; simp [List.takeWhile] at hc
  | cons a as ih =>
    intro c hc
    by_cases hp : p a
    · rw [List.takeWhile_cons, if_pos hp] at hc
      rcases List.mem_cons.mp hc with h | h
      · rw [h]; exact hp
      · exact ih c h
    · rw [List.takeWhile_cons, if_neg hp] at hc
      simp at hc

/-- The head surviving a dropWhile fails the predicate. -/
theorem dropWhile_head_false (p : Char → Bool) :
    ∀ (l : List Char) (c : Char) (cs : List Char),
      l.dropWhile p = c :: cs → p c = false := by
  intro l
  induction l with
  | nil => intro c cs h; simp [List.dropWhile] at h
  | cons a as ih =>
    intro c cs h
    by_cases hp : p a
    · rw [List.dropWhile_cons, if_pos hp] at h
      exact ih c cs h
    · rw [List.dropWhile_cons, if_neg hp] at h
      cases h
      simpa using hp

/-! ## Claim C3 -/

/-- Claim C3: parseReport applied to "[TAJUK] Hello [ABSTRAK] World"
yields tajuk = "Hello", abstrak = "World", and the sentinel
"Content not generated." in the remaining six fields. -/
theorem parseReport_two_labels :
    (parseReport ("[TAJUK] Hello [ABSTRAK] World")).tajuk = "Hello" ∧
    (parseReport ("[TAJUK] Hello [ABSTRAK] World")).abstrak = "World" ∧
    (parseReport ("[TAJUK] Hello [ABSTRAK] World")).pengenalan = "Content not generated." ∧
    (parseReport ("[TAJUK] Hello [ABSTRAK] World")).metodologi = "Content not generated." ∧
    (parseReport ("[TAJUK] Hello [ABSTRAK] World")).hasilKajian = "Content not generated." ∧
    (parseReport ("[TAJUK] Hello [ABSTRAK] World")).perbincangan = "Content not generated." ∧
    (parseReport ("[TAJUK] Hello [ABSTRAK] World")).rumusan = "Content not generated." ∧
    (parseReport ("[TAJUK] Hello [ABSTRAK] World")).rujukan = "Content not generated." := by
  decide

/-! ## Claim C7 -/

/-- Claim C7: parseReport applied to the empty string yields the sentinel
"Content not generated." in all eight fields. -/
theorem parseReport_empty :
    parseReport ("") =
      { tajuk := "Content not generated."
        abstrak := "Content not generated."
        pengenalan := "Content not generated."
        metodologi := "Content not generated."
        hasilKajian := "Content not generated."
        perbincangan := "Content not generated."
        rumusan := "Content not generated."
        rujukan := "Content not generated." } := by
  decide

/-! ## Claim C4 -/

/-- Claim C4 counterexample: the source regex stops the captured content
at the next opening bracket, whatever follows it, not only at one of the
eight label delimiters.  On "[TAJUK] Hello [see note] more" the code
yields "Hello", while the behaviour the claim describes (embedded as
getSectionClaimed) yields "Hello [see note] more". -/
theorem getSection_stops_at_any_bracket :
    (parseReport ("[TAJUK] Hello [see note] more")).tajuk = "Hello" ∧
    getSectionClaimed ("[TAJUK] Hello [see note] more") ("TAJUK") = "Hello [see note] more" ∧
    ¬ ((parseReport ("[TAJUK] Hello [see note] more")).tajuk =
        getSectionClaimed ("[TAJUK] Hello [see note] more") ("TAJUK")) := by
  decide

/-- Claim C4 (amended): for every input and label, getSection either
reports that the bracketed label has no case-insensitive occurrence and
returns the sentinel, or it splits the input at the first occurrence of
the bracketed label and returns the trimmed content running from there
up to the next opening bracket (any bracket, not only a label delimiter)
or the end of the string; the first occurrence is authoritative. -/
theorem getSection_first_occurrence_to_bracket (text label : String) :
    ((∀ i, ¬ OccursCIAt ('[' :: (label.data ++ [']'])) text.data i) ∧
      getSection text label = contentNotGenerated) ∨
    (∃ i m mid post,
      ciEq ('[' :: (label.data ++ [']'])) m ∧
      text.data = text.data.take i ++ m ++ mid ++ post ∧
      (∀ j, j < i → ¬ OccursCIAt ('[' :: (label.data ++ [']'])) text.data j) ∧
      (∀ c, c ∈ mid → ¬ c = '[') ∧
      (post = [] ∨ ∃ tl, post = '[' :: tl) ∧
      getSection text label = String.mk (trimJS mid)) := by
  cases h : findAfter ('[' :: (label.data ++ [']'])) text.data with
  | none =>
    left
    constructor
    · intro i hocc
      obtain ⟨m, rest, hdrop, hci⟩ := hocc
      have hnone := findAfter_nowhere _ _ h i
      rw [hdrop, dropCI_complete _ _ _ hci] at hnone
      cases hnone
    · unfold getSection
      rw [h]
  | some rest =>
    right
    obtain ⟨i, hi, hmin⟩ := findAfter_sound _ _ _ h
    obtain ⟨m, hm, hci⟩ := dropCI_sound _ _ _ hi
    refine ⟨i, m, rest.takeWhile (fun c => !(c == '[')),
      rest.dropWhile (fun c => !(c == '[')), hci, ?_, ?_, ?_, ?_, ?_⟩
    · have hsplit : text.data = text.data.take i ++ (m ++ rest) := by
        rw [← hm, List.take_append_drop]
      calc text.data = text.data.take i ++ (m ++ rest) := hsplit
        _ = text.data.take i ++ m ++
              (rest.takeWhile (fun c => !(c == '[')) ++
               rest.dropWhile (fun c => !(c == '['))) := by
            rw [List.takeWhile_append_dropWhile]
            simp [List.append_assoc]
        _ = text.data.take i ++ m ++ rest.takeWhile (fun c => !(c == '[')) ++
              rest.dropWhile (fun c => !(c == '[')) := by
            simp [List.append_assoc]
    · intro j hj hocc
      obtain ⟨m2, r2, hd2, hc2⟩ := hocc
      have hnone := hmin j hj
      rw [hd2, dropCI_complete _ _ _ hc2] at hnone
      cases hnone
    · intro c hc
      have := takeWhile_true_of_mem _ rest c hc
      simpa using this
    · cases hpost : rest.dropWhile (fun c => !(c == '[')) with
      | nil => exact Or.inl rfl
      | cons d ds =>
        right
        have hd : (!(d == '[')) = false := dropWhile_head_false _ rest d ds hpost
        have : d = '[' := by simpa using hd
        exact ⟨ds, by rw [this]⟩
    · unfold getSection
      rw [h]

/-- Claim C4 amended witness: the characterisation at a concrete input
and label. -/
theorem getSection_first_occurrence_to_bracket_witness :
    ((∀ i, ¬ OccursCIAt ('[' :: (("TAJUK").data ++ [']'])) ("[TAJUK] Hi").data i) ∧
      getSection ("[TAJUK] Hi") ("TAJUK") = contentNotGenerated) ∨
    (∃ i m mid post,
      ciEq ('[' :: (("TAJUK").data ++ [']'])) m ∧
      ("[TAJUK] Hi").data = ("[TAJUK] Hi").data.take i ++ m ++ mid ++ post ∧
      (∀ j, j < i → ¬ OccursCIAt ('[' :: (("TAJUK").data ++ [']'])) ("[TAJUK] Hi").data j) ∧
      (∀ c, c ∈ mid → ¬ c = '[') ∧
      (post = [] ∨ ∃ tl, post = '[' :: tl) ∧
      getSection ("[TAJUK] Hi") ("TAJUK") = String.mk (trimJS mid)) :=
  getSection_first_occurrence_to_bracket ("[TAJUK] Hi") ("TAJUK")

/-! ## Claim C5 -/

/-- Claim C5: with an empty research question, submitting a search is a
silent no-op: the state (stage included) is unchanged and no external
call is issued. -/
theorem handleSearch_empty_noop (s : LRState) (o : CallOutcome SearchResults)
    (h : s.query = "") : handleSearch s o = (s, false) := by
  simp [handleSearch, h]

/-- Claim C5 witness: the no-op at the initial state. -/
theorem handleSearch_empty_noop_witness :
    initState.query = "" ∧ handleSearch initState CallOutcome.err = (initState, false) :=
  ⟨rfl, handleSearch_empty_noop initState CallOutcome.err rfl⟩

/-! ## Claim C6 -/

/-- Claim C6: the Start New Project reset invoked from the FINISH stage
sets the stage to 1 and clears the results, the synthesis and the report
draft to empty. -/
theorem startNewProject_resets (s : LRState) (_h : s.stage = 6) :
    (startNewProject s).stage = 1 ∧ (startNewProject s).results = none ∧
    (startNewProject s).finalSynthesis = "" ∧ (startNewProject s).reportDraft = "" := by
  simp [startNewProject]

/-- Claim C6 witness: the reset at a concrete finish-stage state. -/
theorem startNewProject_resets_witness :
    sFinish.stage = 6 ∧
    ((startNewProject sFinish).stage = 1 ∧ (startNewProject sFinish).results = none ∧
     (startNewProject sFinish).finalSynthesis = "" ∧
     (startNewProject sFinish).reportDraft = "") :=
  ⟨by decide, startNewProject_resets sFinish (by decide)⟩

/-! ## Claim C1 -/

/-- Claim C1 counterexample: handleSearch advances the stage to 2 before
awaiting the external call, so after a failed call from the plan stage
the stage is 2, not the pre-invocation value 1; the loading flag is
cleared.  This falsifies the claim that every failing stage-advancing
handler leaves the stage as it was before the action. -/
theorem handleSearch_failure_stage_two :
    sSearchFail.stage = 1 ∧
    (handleSearch sSearchFail CallOutcome.err).1.stage = 2 ∧
    ¬ ((handleSearch sSearchFail CallOutcome.err).1.stage = sSearchFail.stage) ∧
    (handleSearch sSearchFail CallOutcome.err).1.loading = false ∧
    (handleSearch sSearchFail CallOutcome.err).2 = true := by
  decide

/-- Claim C1 (amended): when the awaited external call fails, every
handler clears the loading flag; handleSynthesize and handleWrite leave
the stage unchanged, while handleSearch (which optimistically sets stage
2 before the call) ends on stage 2 rather than the pre-invocation
stage. -/
theorem handler_failure_loading_cleared (s : LRState) :
    (s.results.isSome = true →
      (handleSynthesize s CallOutcome.err).1.stage = s.stage ∧
      (handleSynthesize s CallOutcome.err).1.loading = false) ∧
    ((handleWrite s CallOutcome.err).1.stage = s.stage ∧
      (handleWrite s CallOutcome.err).1.loading = false) ∧
    (¬ s.query = "" →
      (handleSearch s CallOutcome.err).1.stage = 2 ∧
      (handleSearch s CallOutcome.err).1.loading = false) := by
  refine ⟨?_, ?_, ?_⟩
  · intro hr
    cases h : s.results with
    | none => rw [h] at hr; cases hr
    | some r => simp [handleSynthesize, h]
  · simp [handleWrite]
  · intro hq
    simp [handleSearch, hq]

/-- Claim C1 amended witness: the failure outcomes at concrete states. -/
theorem handler_failure_loading_cleared_witness :
    ((handleSynthesize sMid CallOutcome.err).1.stage = sMid.stage ∧
      (handleSynthesize sMid CallOutcome.err).1.loading = false) ∧
    ((handleWrite sMid CallOutcome.err).1.stage = sMid.stage ∧
      (handleWrite sMid CallOutcome.err).1.loading = false) ∧
    ((handleSearch sMid CallOutcome.err).1.stage = 2 ∧
      (handleSearch sMid CallOutcome.err).1.loading = false) :=
  ⟨(handler_failure_loading_cleared sMid).1 (by decide),
   (handler_failure_loading_cleared sMid).2.1,
   (handler_failure_loading_cleared sMid).2.2 (by decide)⟩

/-! ## Claim C2 -/

/-- Claim C2: along every run of enabled controller actions from the
initial state the stage stays within [1, 6], and no enabled action other
than the explicit reset ever decreases the stage. -/
theorem stage_bounded_and_monotone :
    (∀ s, ReachableState s → 1 ≤ s.stage ∧ s.stage ≤ 6) ∧
    (∀ (s : LRState) (a : Action), enabled s a = true → isReset a = false →
      s.stage ≤ (step s a).stage) := by
  constructor
  · intro s h
    induction h with
    | init => decide
    | next s a hs hen ih =>
      cases a with
      | search o =>
        by_cases hq : s.query = ""
        · simpa [step, handleSearch, hq] using ih
        · cases o with
          | ok data => simp [step, handleSearch, hq]
          | err => simp [step, handleSearch, hq]
      | deepCapture p o =>
        cases o with
        | ok d => simpa [step, handleDeepCapture] using ih
        | err => simpa [step, handleDeepCapture] using ih
      | synthesize o =>
        cases hr : s.results with
        | none => simpa [step, handleSynthesize, hr] using ih
        | some r =>
          cases o with
          | ok v => simp [step, handleSynthesize, hr]
          | err => simpa [step, handleSynthesize, hr] using ih
      | write o =>
        cases o with
        | ok v => simp [step, handleWrite]
        | err => simpa [step, handleWrite] using ih
      | finishAction => simp [step, handleFinish]
      | resetAction => simp [step, startNewProject]
      | setQuery q => simpa [step] using ih
      | setUserReferences r => simpa [step] using ih
      | setReviewType t => simpa [step] using ih
      | setViewMode m => simpa [step] using ih
      | closeCapture => simpa [step] using ih
  · intro s a hen hnr
    cases a with
    | search o =>
      have h1 : s.stage = 1 := by
        simp [enabled, Bool.and_eq_true] at hen
        exact hen.1
      by_cases hq : s.query = ""
      · simp [step, handleSearch, hq]
      · cases o with
        | ok data => simp [step, handleSearch, hq]; omega
        | err => simp [step, handleSearch, hq]; omega
    | deepCapture p o =>
      cases o with
      | ok d => simp [step, handleDeepCapture]
      | err => simp [step, handleDeepCapture]
    | synthesize o =>
      have h3 : s.stage = 3 := by
        simp [enabled, Bool.and_eq_true] at hen
        exact hen.1.1
      cases hr : s.results with
      | none => simp [step, handleSynthesize, hr]
      | some r =>
        cases o with
        | ok v => simp [step, handleSynthesize, hr]; omega
        | err => simp [step, handleSynthesize, hr]
    | write o =>
      have h4 : s.stage = 4 := by
        simp [enabled, Bool.and_eq_true] at hen
        exact hen.1.1
      cases o with
      | ok v => simp [step, handleWrite]; omega
      | err => simp [step, handleWrite]
    | finishAction =>
      have h5 : s.stage = 5 := by
        simp [enabled, Bool.and_eq_true] at hen
        exact hen.1
      simp [step, handleFinish]; omega
    | resetAction => simp [isReset] at hnr
    | setQuery q => simp [step]
    | setUserReferences r => simp [step]
    | setReviewType t => simp [step]
    | setViewMode m => simp [step]
    | closeCapture => simp [step]

/-- Claim C2 witness: the bounds at the initial state and monotonicity of
a concrete enabled non-reset action. -/
theorem stage_bounded_and_monotone_witness :
    (1 ≤ initState.stage ∧ initState.stage ≤ 6) ∧
    initState.stage ≤ (step initState (Action.search CallOutcome.err)).stage :=
  ⟨stage_bounded_and_monotone.1 initState ReachableState.init,
   stage_bounded_and_monotone.2 initState (Action.search CallOutcome.err)
     (by decide) (by decide)⟩

/-! ## Claim C8 -/

/-- Claim C8 counterexample: analyzeData does not wrap its JSON.parse in
try/catch; on a response that is not JSON the parse failure is
propagated to the caller instead of being replaced by a fallback
value. -/
theorem analyzeData_propagates :
    analyzeData ("not json") = Except.error jsonParseError := by
  rfl

/-- Claim C8 (amended): captureArticleDetails substitutes the fallback
record and returns normally whenever the extracted JSON block fails to
parse, while analyzeData propagates the parse failure of the trimmed
response text to its caller. -/
theorem json_defensive_amended :
    (∀ text title : String, jsonParseModel (jsonStrOf text) = none →
      captureArticleDetails text title = fallbackDetails title) ∧
    (∀ text : String, jsonParseModel (String.mk (trimJS text.data)) = none →
      analyzeData text = Except.error jsonParseError) := by
  constructor
  · intro text title h
    unfold captureArticleDetails
    rw [h]
  · intro text h
    unfold analyzeData
    rw [h]

/-- Claim C8 amended witness: a malformed brace block makes
captureArticleDetails fall back, and a malformed response makes
analyzeData error out. -/
theorem json_defensive_amended_witness :
    (jsonParseModel (jsonStrOf ("\x7boops\x7d")) = none ∧
      captureArticleDetails ("\x7boops\x7d") ("Some Title") = fallbackDetails ("Some Title")) ∧
    (jsonParseModel (String.mk (trimJS ("not a json").data)) = none ∧
      analyzeData ("not a json") = Except.error jsonParseError) :=
  ⟨⟨by rfl, json_defensive_amended.1 ("\x7boops\x7d") ("Some Title") (by rfl)⟩,
   ⟨by rfl, json_defensive_amended.2 ("not a json") (by rfl)⟩⟩

/-! ## Claim C9 -/

/-- Membership in the collapsed list comes from the original list or is a
newline. -/
theorem mem_of_collapseAux :
    ∀ (l : List Char) (r : Nat) (c : Char),
      c ∈ collapseAux r l → c ∈ l ∨ c = '\n' := by
  intro l
  induction l with
  | nil => intro r c hc; simp [collapseAux] at hc
  | cons a as ih =>
    intro r c hc
    by_cases ha : a = '\n'
    · by_cases h2 : 2 ≤ r
      · rw [collapseAux, if_pos ha, if_pos h2] at hc
        rcases ih r c hc with h | h
        · exact Or.inl (List.mem_cons_of_mem a h)
        · exact Or.inr h
      · rw [collapseAux, if_pos ha, if_neg h2] at hc
        rcases List.mem_cons.mp hc with h | h
        · exact Or.inr h
        · rcases ih (r + 1) c h with h | h
          · exact Or.inl (List.mem_cons_of_mem a h)
          · exact Or.inr h
    · rw [collapseAux, if_neg ha] at hc
      rcases List.mem_cons.mp hc with h | h
      · exact Or.inl (h ▸ List.mem_cons_self a as)
      · rcases ih 0 c h with h | h
        · exact Or.inl (List.mem_cons_of_mem a h)
        · exact Or.inr h

/-- Membership survives a dropWhile backwards. -/
theorem mem_of_dropWhile (p : Char → Bool) :
    ∀ (l : List Char) (c : Char), c ∈ l.dropWhile p → c ∈ l := by
  intro l
  induction l with
  | nil => intro c hc; simp [List.dropWhile] at hc
  | cons a as ih =>
    intro c hc
    by_cases hp : p a
    · rw [List.dropWhile_cons, if_pos hp] at hc
      exact List.mem_cons_of_mem a (ih c hc)
    · rw [List.dropWhile_cons, if_neg hp] at hc
      exact hc

/-- Membership survives trimming backwards. -/
theorem mem_of_trimJS (l : List Char) (c : Char) (hc : c ∈ trimJS l) : c ∈ l := by
  unfold trimJS at hc
  have h1 := List.mem_reverse.mp hc
  have h2 := mem_of_dropWhile _ _ _ h1
  have h3 := List.mem_reverse.mp h2
  exact mem_of_dropWhile _ _ _ h3

/-- A character removed by the sanitiser does not occur in the processed
search text. -/
theorem not_mem_searchText (s : String) (c : Char) (hk : keepChar c = false) :
    ¬ c ∈ (searchText s).data := by
  intro hc
  have h1 : c ∈ collapseNewlines (s.data.filter keepChar) := mem_of_trimJS _ _ hc
  rcases mem_of_collapseAux _ _ _ h1 with h | h
  · have := (List.mem_filter.mp h).2
    rw [hk] at this
    cases this
  · rw [h] at hk
    simp [keepChar] at hk

/-- Claim C9: the stored or shown summary text of searchLiterature and
the stored response of composeAcademicText contain no hash and no
asterisk characters; in particular the markers of "**bold**" and
"# heading" are stripped. -/
theorem responses_sanitized :
    ∀ s : String,
      (List.count '#' (searchText s).data = 0 ∧
       List.count '*' (searchText s).data = 0) ∧
      (List.count '#' (composeAcademicText s).data = 0 ∧
       List.count '*' (composeAcademicText s).data = 0) ∧
      composeAcademicText ("**bold**") = "bold" ∧
      searchText ("# heading") = "heading" := by
  intro s
  refine ⟨⟨?_, ?_⟩, ⟨?_, ?_⟩, by decide, by decide⟩
  · exact List.count_eq_zero.mpr (not_mem_searchText s '#' (by decide))
  · exact List.count_eq_zero.mpr (not_mem_searchText s '*' (by decide))
  · refine List.count_eq_zero.mpr ?_
    intro hc
    have := (List.mem_filter.mp hc).2
    simp [keepChar] at this
  · refine List.count_eq_zero.mpr ?_
    intro hc
    have := (List.mem_filter.mp hc).2
    simp [keepChar] at this

/-! ## Claim C10 -/

/-- mapWithIndex preserves length. -/
theorem mapWithIndex_length {α β : Type} (f : Nat → α → β) :
    ∀ (k : Nat) (l : List α), (mapWithIndex f k l).length = l.length := by
  intro k l
  induction l generalizing k with
  | nil => rfl
  | cons a as ih => simp [mapWithIndex, ih]

/-- The element of mapWithIndex at position i is the image of the source
element with the offset index. -/
theorem mapWithIndex_get_eq {α β : Type} (f : Nat → α → β) :
    ∀ (l : List α) (k i : Nat) (h1 : i < (mapWithIndex f k l).length)
      (h2 : i < l.length),
      (mapWithIndex f k l).get ⟨i, h1⟩ = f (k + i) (l.get ⟨i, h2⟩) := by
  intro l
  induction l with
  | nil => intro k i h1 h2; simp at h2
  | cons a as ih =>
    intro k i h1 h2
    cases i with
    | zero => simp [mapWithIndex]
    | succ n =>
      have h3 : n < (mapWithIndex f (k + 1) as).length := by
        simpa [mapWithIndex] using h1
      have h4 : n < as.length := by simpa using h2
      have := ih (k + 1) n h3 h4
      simpa [mapWithIndex, Nat.add_assoc, Nat.add_comm 1 n] using this

/-- Every element of mapWithIndex is the image of a source element. -/
theorem mem_of_mapWithIndex {α β : Type} (f : Nat → α → β) :
    ∀ (l : List α) (k : Nat) (b : β),
      b ∈ mapWithIndex f k l → ∃ i a, a ∈ l ∧ b = f i a := by
  intro l
  induction l with
  | nil => intro k b hb; simp [mapWithIndex] at hb
  | cons x xs ih =>
    intro k b hb
    rcases List.mem_cons.mp hb with h | h
    · exact ⟨k, x, List.mem_cons_self x xs, h⟩
    · obtain ⟨i, a, ha, hba⟩ := ih (k + 1) b h
      exact ⟨i, a, List.mem_cons_of_mem x ha, hba⟩

/-- Membership survives a take backwards. -/
theorem mem_of_take {β : Type} :
    ∀ (l : List β) (n : Nat) (b : β), b ∈ l.take n → b ∈ l := by
  intro l
  induction l with
  | nil => intro n b hb; simp at hb
  | cons x xs ih =>
    intro n b hb
    cases n with
    | zero => simp at hb
    | succ m =>
      rcases List.mem_cons.mp hb with h | h
      · exact h ▸ List.mem_cons_self x xs
      · exact List.mem_cons_of_mem x (ih m b h)

/-- Taking a front segment does not change the elements it keeps. -/
theorem get_take_eq {β : Type} :
    ∀ (l : List β) (n i : Nat) (h1 : i < (l.take n).length) (h2 : i < l.length),
      (l.take n).get ⟨i, h1⟩ = l.get ⟨i, h2⟩ := by
  intro l
  induction l with
  | nil => intro n i h1 h2; simp at h2
  | cons x xs ih =>
    intro n i h1 h2
    cases n with
    | zero => simp at h1
    | succ m =>
      cases i with
      | zero => rfl
      | succ j =>
        have h3 : j < (xs.take m).length := by simpa using h1
        have h4 : j < xs.length := by simpa using h2
        simp only [List.take_cons, List.get_cons_succ]
        exact ih m j h3 h4

/-- Claim C10 counterexample: the id index is assigned after filtering,
so it is the position in the filtered list, not the chunk index.  With a
uri-less chunk at index 0 and the only uri-bearing chunk at index 1, the
single produced paper carries that chunk url but id "paper-0", not
"paper-1". -/
theorem searchPapers_id_not_chunk_index :
    hasUri chunkNoUri = false ∧
    hasUri chunkWithUri = true ∧
    searchPapers chunksEx coinTrue = [paperEx] ∧
    paperEx.url = "http://u1" ∧
    paperEx.id = "paper-0" ∧
    ¬ (paperEx.id = "paper-1") := by
  decide

/-- Claim C10 (amended): searchLiterature returns at most 50 papers,
every returned paper is built from a grounding chunk with a (truthy) web
uri, and the paper at position i has id "paper-" followed by i, its
position in the filtered chunk sequence (which is the index the map
callback receives). -/
theorem searchPapers_bounded_indexed :
    ∀ (chunks : List GroundingChunk) (coin : Nat → Bool),
      (searchPapers chunks coin).length ≤ 50 ∧
      (∀ p, p ∈ searchPapers chunks coin →
        ∃ i c, c ∈ chunks ∧ hasUri c = true ∧ p = mkPaper coin i c) ∧
      (∀ (i : Nat) (h : i < (searchPapers chunks coin).length),
        ((searchPapers chunks coin).get ⟨i, h⟩).id = "paper-" ++ toString i) := by
  intro chunks coin
  refine ⟨?_, ?_, ?_⟩
  · simp only [searchPapers, List.length_take]
    omega
  · intro p hp
    have h1 := mem_of_take _ _ _ hp
    obtain ⟨i, c, hc, hpc⟩ := mem_of_mapWithIndex _ _ _ _ h1
    exact ⟨i, c, (List.mem_filter.mp hc).1, (List.mem_filter.mp hc).2, hpc⟩
  · intro i h
    have hlen : i < (mapWithIndex (mkPaper coin) 0 (chunks.filter hasUri)).length := by
      simp only [searchPapers, List.length_take] at h
      simp only [mapWithIndex_length]
      simp only [mapWithIndex_length] at h
      omega
    have hlen2 : i < (chunks.filter hasUri).length := by
      rw [mapWithIndex_length] at hlen
      exact hlen
    have hget : (searchPapers chunks coin).get ⟨i, h⟩ =
        (mapWithIndex (mkPaper coin) 0 (chunks.filter hasUri)).get ⟨i, hlen⟩ :=
      get_take_eq _ _ _ _ _
    rw [hget, mapWithIndex_get_eq _ _ _ _ _ hlen2]
    simp [mkPaper]

/-- Claim C10 amended witness: the bound, membership and id shape at a
concrete chunk list. -/
theorem searchPapers_bounded_indexed_witness :
    (searchPapers chunksEx coinTrue).length ≤ 50 ∧
    (∃ i c, c ∈ chunksEx ∧ hasUri c = true ∧ paperEx = mkPaper coinTrue i c) ∧
    ((searchPapers chunksEx coinTrue).get ⟨0, by decide⟩).id = "paper-" ++ toString 0 :=
  ⟨(searchPapers_bounded_indexed chunksEx coinTrue).1,
   (searchPapers_bounded_indexed chunksEx coinTrue).2.1 paperEx (by decide),
   (searchPapers_bounded_indexed chunksEx coinTrue).2.2 0 (by decide)⟩

end ScholarWriting
